import Mathlib

set_option maxHeartbeats 1000000
set_option maxRecDepth 100000

/-!
Shallow embedding of the crowdsec application-security acquisition module
(`pkg/acquisition/modules/appsec/appsec.go`) and of the decision-deletion
helpers of the database package, together with proofs of the specified
properties.

Time instants (`time.Time`) are modelled as natural numbers; Go's
`t.After(u)` is the strict comparison `t > u`.
-/

namespace AppsecAcquisition

/-- `AuthCache`: the `map[string]time.Time` of validated API keys.  The
reader/writer mutex only guards concurrent access; the sequential semantics
modelled here is that of the underlying map. -/
structure AuthCache where
  APIKeys : String → Option Nat

/-- `NewAuthCache` returns a cache with an empty key map. -/
def NewAuthCache : AuthCache := ⟨fun _ => none⟩

/-- `AuthCache.Set`: map assignment `ac.APIKeys[apiKey] = expiration`. -/
def AuthCache.Set (ac : AuthCache) (apiKey : String) (expiration : Nat) : AuthCache :=
  ⟨fun k => if k = apiKey then some expiration else ac.APIKeys k⟩

/-- `AuthCache.Get`: map lookup returning `(expiration, exists)`; `none`
models `exists = false`. -/
def AuthCache.Get (ac : AuthCache) (apiKey : String) : Option Nat :=
  ac.APIKeys apiKey

/-- A mutation of the cache: `AuthCache.Set` is the only writer. -/
inductive CacheOp where
  | set (apiKey : String) (expiration : Nat)
  deriving DecidableEq

/-- Apply one cache mutation. -/
def applyOp (ac : AuthCache) : CacheOp → AuthCache
  | .set k e => ac.Set k e

/-- Apply a sequence of cache mutations, oldest first. -/
def applyOps (ac : AuthCache) (ops : List CacheOp) : AuthCache :=
  ops.foldl applyOp ac

/-- The key written by a cache mutation. -/
def CacheOp.key : CacheOp → String
  | .set k _ => k

/-- Outcome of the HEAD call performed by `IsAuth`: `http.NewRequest` may
fail, `client.Do` may fail (transport error, including the 200 ms timeout),
or a response with some status code arrives. -/
inductive HttpOutcome where
  | newRequestError
  | transportError
  | response (statusCode : Nat)
  deriving DecidableEq

/-- The parts of an outgoing HTTP request that `IsAuth` controls. -/
structure HttpRequest where
  method : String
  url : String
  headers : List (String × String)
  deriving DecidableEq

/-- `w.lapiURL`, built in `UnmarshalConfig`:
`fmt.Sprintf("%sv1/decisions/stream", csConfig.API.Client.Credentials.URL)`. -/
def lapiURL (credentialsURL : String) : String :=
  credentialsURL ++ "v1/decisions/stream"

/-- The request `IsAuth` issues: HEAD to `lapiURL` with the key in the
`X-Api-Key` header. -/
def authRequest (credentialsURL apiKey : String) : HttpRequest :=
  { method := "HEAD", url := lapiURL credentialsURL, headers := [("X-Api-Key", apiKey)] }

/-- `AppsecSource.IsAuth` (lines 315-335), with the network abstracted as a
function from the issued request to its outcome.  Both error branches log and
return `false`; otherwise the result is `statusCode == 200`. -/
def IsAuth (net : HttpRequest → HttpOutcome) (credentialsURL apiKey : String) : Bool :=
  match net (authRequest credentialsURL apiKey) with
  | .newRequestError => false
  | .transportError => false
  | .response statusCode => statusCode == 200

/-- `AppsecSourceConfig` as produced by a successful `yaml.UnmarshalStrict`:
the YAML fields plus the inherited `Mode` and `Name` of
`DataSourceCommonCfg`. -/
structure AppsecSourceConfig where
  ListenAddr : String
  ListenSocket : String
  CertFilePath : String
  KeyFilePath : String
  Path : String
  Routines : Int
  AppsecConfig : String
  AppsecConfigPath : String
  AuthCacheDuration : Option Nat
  Mode : String
  Name : String
  deriving DecidableEq

/-- `configuration.TAIL_MODE`. -/
def TAIL_MODE : String := "tail"

/-- Lines 102-104: default `ListenAddr` when both bind options are empty. -/
def defaultListenAddr (cfg : AppsecSourceConfig) : AppsecSourceConfig :=
  if cfg.ListenAddr = "" ∧ cfg.ListenSocket = "" then
    { cfg with ListenAddr := "127.0.0.1:7422" } else cfg

/-- Lines 106-108: default `Path` to `/` when empty. -/
def defaultPathRoot (cfg : AppsecSourceConfig) : AppsecSourceConfig :=
  if cfg.Path = "" then { cfg with Path := "/" } else cfg

/-- Lines 110-112: enforce a leading `/` on `Path`.  The byte test
`w.config.Path[0] != '/'` is modelled on the first character. -/
def ensureLeadingSlash (cfg : AppsecSourceConfig) : AppsecSourceConfig :=
  if cfg.Path.data.head? ≠ some '/' then { cfg with Path := "/" ++ cfg.Path } else cfg

/-- Lines 114-116: default `Mode` to `TAIL_MODE` when empty. -/
def defaultMode (cfg : AppsecSourceConfig) : AppsecSourceConfig :=
  if cfg.Mode = "" then { cfg with Mode := TAIL_MODE } else cfg

/-- Lines 119-121: always have at least one appsec routine. -/
def defaultRoutines (cfg : AppsecSourceConfig) : AppsecSourceConfig :=
  if cfg.Routines = 0 then { cfg with Routines := 1 } else cfg

/-- Lines 127-134: derive `Name` from the bind options when unset.  The two
inner `if`s run in sequence on conditions that cannot both hold (the first
requires a non-empty socket, the second an empty one), so they are written as
an `if .. else if`. -/
def setName (cfg : AppsecSourceConfig) : AppsecSourceConfig :=
  if cfg.Name = "" then
    if cfg.ListenSocket ≠ "" ∧ cfg.ListenAddr = "" then
      { cfg with Name := cfg.ListenSocket }
    else if cfg.ListenSocket = "" then
      { cfg with Name := cfg.ListenAddr ++ cfg.Path }
    else cfg
  else cfg

/-- The defaulting steps of lines 102-121, in source order. -/
def normalizeConfig (cfg : AppsecSourceConfig) : AppsecSourceConfig :=
  defaultRoutines (defaultMode (ensureLeadingSlash (defaultPathRoot (defaultListenAddr cfg))))

/-- `AppsecSource.UnmarshalConfig` (lines 96-141) after the strict YAML parse
succeeded: defaulting, the rule-set requirement check, and naming, in source
order. -/
def UnmarshalConfig (cfg : AppsecSourceConfig) : Except String AppsecSourceConfig :=
  let c := normalizeConfig cfg
  if c.AppsecConfig = "" ∧ c.AppsecConfigPath = "" then
    Except.error "appsec_config or appsec_config_path must be set"
  else
    Except.ok (setName c)

/-- One observable action of `appsecHandler`, in program order. -/
inductive HEvent where
  | probeCall
  | cacheSet (apiKey : String) (expiration : Nat)
  | reqCounterInc
  | enqueue (engineName : String)
  | blockCounterInc
  | writeHeader (statusCode : Nat)
  | writeBody
  deriving DecidableEq

/-- Ambient state of `AppsecSource` read by the handler: the probe outcome
(`w.IsAuth`), the current instant, `*w.config.AuthCacheDuration` and
`w.config.Name`. -/
structure HandlerEnv where
  probe : String → Bool
  now : Nat
  authCacheDuration : Nat
  engineName : String

/-- Per-request data beyond the API key: the outcome of
`NewParsedRequestFromRequest`, the verdict read from the reply channel, the
status from `GenerateResponse` and the JSON serialization outcome. -/
structure RequestIn where
  apiKey : String
  parseOk : Bool
  inBandInterrupt : Bool
  responseStatus : Nat
  marshalOk : Bool

/-- The recheck condition `!exists || time.Now().After(expiration)` of line
351; `After` is the strict comparison. -/
def authNeedsProbe (env : HandlerEnv) (cache : AuthCache) (apiKey : String) : Bool :=
  match cache.Get apiKey with
  | none => true
  | some expiration => decide (env.now > expiration)

/-- Events of the handler after the auth check succeeded (lines 362-400):
parse, engine-name stamping, request counter, enqueue, verdict, block
counter, response write. -/
def afterAuth (env : HandlerEnv) (r : RequestIn) : List HEvent :=
  if r.parseOk = false then [.writeHeader 500]
  else
    .reqCounterInc :: .enqueue env.engineName ::
      ((if r.inBandInterrupt then [HEvent.blockCounterInc] else []) ++
        HEvent.writeHeader r.responseStatus ::
          (if r.marshalOk then [HEvent.writeBody] else [HEvent.writeHeader 500]))

/-- `AppsecSource.appsecHandler` (lines 338-401): returns the event trace of
the request and the cache state it leaves behind. -/
def appsecHandler (env : HandlerEnv) (cache : AuthCache) (r : RequestIn) :
    List HEvent × AuthCache :=
  if r.apiKey = "" then ([.writeHeader 401], cache)
  else if authNeedsProbe env cache r.apiKey then
    if env.probe r.apiKey then
      (.probeCall :: .cacheSet r.apiKey (env.now + env.authCacheDuration) :: afterAuth env r,
        cache.Set r.apiKey (env.now + env.authCacheDuration))
    else ([.probeCall, .writeHeader 401], cache)
  else (afterAuth env r, cache)

/-- A request passes the auth check of lines 341-360 (reaches parsing). -/
def authOK (env : HandlerEnv) (cache : AuthCache) (apiKey : String) : Bool :=
  apiKey != "" && (if authNeedsProbe env cache apiKey then env.probe apiKey else true)

/-- Count the events satisfying `p` in a trace. -/
def countEv (p : HEvent → Bool) (l : List HEvent) : Nat :=
  (l.filter p).length

/-- Recognize the request-counter increment. -/
def isReqInc : HEvent → Bool
  | .reqCounterInc => true
  | _ => false

/-- Recognize the block-counter increment. -/
def isBlockInc : HEvent → Bool
  | .blockCounterInc => true
  | _ => false

/-- Recognize the enqueue of the parsed request. -/
def isEnqueue : HEvent → Bool
  | .enqueue _ => true
  | _ => false

end AppsecAcquisition

namespace DecisionDB

/-- `decisionDeleteBulkSize` (line 22 of the database decisions file). -/
def decisionDeleteBulkSize : Nat := 256

/-- A decision row; only its `ID` matters to the deletion helpers. -/
structure Decision where
  ID : Int
  deriving DecidableEq

/-- `decisionIDs`: collect the ids of a slice of decisions. -/
def decisionIDs (decisions : List Decision) : List Int :=
  decisions.map Decision.ID

/-- `slicetools.Chunks` from go-cs-lib: the whole slice when it has at most
`size` elements, otherwise consecutive chunks of `size` elements with a
shorter final chunk. -/
def Chunks (l : List Decision) (size : Nat) : List (List Decision) :=
  if size = 0 ∨ l.length ≤ size then [l]
  else l.take size :: Chunks (l.drop size) size
termination_by l.length
decreasing_by
  simp only [List.length_drop]
  omega

/-- The database bulk delete
`c.Ent.Decision.Delete().Where(decision.IDIn(ids...)).Exec(ctx)`, abstracted:
it reports the number of deleted rows or an error. -/
def DbExec : Type := List Int → Except String Nat

/-- The `for _, chunk := range slicetools.Chunks(...)` loop body of
`DeleteDecisions`: run `f` on each chunk, accumulate the row total, stop at
the first error (the partial total that accompanies a Go error return is
dropped); `none` propagates an exhausted recursion budget. -/
def deleteLoop (f : List Decision → Option (Except String Nat)) :
    List (List Decision) → Nat → Option (Except String Nat)
  | [], tot => some (.ok tot)
  | chunk :: rest, tot =>
    match f chunk with
    | none => none
    | some (.error e) => some (.error e)
    | some (.ok rows) => deleteLoop f rest (tot + rows)

/-- `Client.DeleteDecisions` (lines 431-459) with an explicit recursion
budget: each recursive call consumes one unit and `none` means the budget ran
out, i.e. the Go recursion at that depth has not returned. -/
def DeleteDecisionsFuel (exec : DbExec) : Nat → List Decision → Option (Except String Nat)
  | 0, _ => none
  | fuel + 1, decisions =>
    if decisions.length < decisionDeleteBulkSize then
      some (exec (decisionIDs decisions))
    else
      deleteLoop (fun chunk => DeleteDecisionsFuel exec fuel chunk)
        (Chunks decisions decisionDeleteBulkSize) 0

/-- `Client.ExpireDecisions` (lines 399-427), the sibling of
`DeleteDecisions`: identical shape but with the inclusive guard
`len(decisions) <= decisionDeleteBulkSize`. -/
def ExpireDecisionsFuel (exec : DbExec) : Nat → List Decision → Option (Except String Nat)
  | 0, _ => none
  | fuel + 1, decisions =>
    if decisions.length ≤ decisionDeleteBulkSize then
      some (exec (decisionIDs decisions))
    else
      deleteLoop (fun chunk => ExpireDecisionsFuel exec fuel chunk)
        (Chunks decisions decisionDeleteBulkSize) 0

/-- A database oracle that always succeeds and reports one row per id. -/
def dbCount : DbExec := fun ids => .ok ids.length

/-- A concrete batch of exactly `decisionDeleteBulkSize` decisions. -/
def bulkBatch : List Decision :=
  (List.range decisionDeleteBulkSize).map fun i => ⟨(i : Int)⟩

end DecisionDB

namespace AppsecAcquisition

/-- Stability: a sequence of `Set` operations on other keys leaves the entry
for `k` untouched. -/
theorem applyOps_get_other (k : String) (ops : List CacheOp) (ac : AuthCache)
    (hk : ops.all (fun op => op.key != k) = true) :
    (applyOps ac ops).Get k = ac.Get k := by
  induction ops generalizing ac with
  | nil => rfl
  | cons op rest ih =>
    simp only [List.all_cons, Bool.and_eq_true] at hk
    cases op with
    | set k2 e2 =>
      have hne : ¬ k = k2 := by
        have h2 := hk.1
        simp only [CacheOp.key, bne_iff_ne, ne_eq] at h2
        exact fun h => h2 h.symm
      have step : (applyOp ac (CacheOp.set k2 e2)).Get k = ac.Get k := by
        simp [applyOp, AuthCache.Set, AuthCache.Get, hne]
      calc (applyOps ac (CacheOp.set k2 e2 :: rest)).Get k
          = (applyOps (applyOp ac (CacheOp.set k2 e2)) rest).Get k := rfl
        _ = (applyOp ac (CacheOp.set k2 e2)).Get k := ih _ hk.2
        _ = ac.Get k := step

/-- C5: after `Set(K, E)` every `Get(K)` returns `(E, true)` until a later
`Set` of the same key, and a key never passed to `Set` is reported absent. -/
theorem authCache_roundtrip (ac : AuthCache) (k : String) (e : Nat) (ops : List CacheOp)
    (hk : ops.all (fun op => op.key != k) = true) :
    (applyOps (ac.Set k e) ops).Get k = some e ∧
    (applyOps NewAuthCache ops).Get k = none := by
  constructor
  · rw [applyOps_get_other k ops _ hk]
    simp [AuthCache.Get, AuthCache.Set]
  · rw [applyOps_get_other k ops _ hk]
    rfl

/-- Witness for C5 at a concrete key, expiration and operation list. -/
theorem authCache_roundtrip_witness :
    (applyOps (NewAuthCache.Set "k1" 5) [CacheOp.set "k2" 7]).Get "k1" = some 5 ∧
    (applyOps NewAuthCache [CacheOp.set "k2" 7]).Get "k1" = none :=
  authCache_roundtrip NewAuthCache "k1" 5 [CacheOp.set "k2" 7] (by decide)

/-- C4: `IsAuth` issues a HEAD request to the configured upstream URL with
the key in the `X-Api-Key` header, and returns `true` exactly when that call
comes back with status 200; request-construction errors, transport errors and
timeouts all yield `false` (no error is propagated: the result is a plain
boolean). -/
theorem isAuth_true_iff_status_200 (net : HttpRequest → HttpOutcome)
    (credentialsURL apiKey : String) :
    (authRequest credentialsURL apiKey).method = "HEAD" ∧
    (authRequest credentialsURL apiKey).url = credentialsURL ++ "v1/decisions/stream" ∧
    (authRequest credentialsURL apiKey).headers = [("X-Api-Key", apiKey)] ∧
    (IsAuth net credentialsURL apiKey = true ↔
      net (authRequest credentialsURL apiKey) = HttpOutcome.response 200) := by
  refine ⟨rfl, rfl, rfl, ?_⟩
  unfold IsAuth
  cases h : net (authRequest credentialsURL apiKey) <;> simp_all

/-- The normalization steps do not touch the rule-set fields. -/
theorem normalizeConfig_appsecFields (cfg : AppsecSourceConfig) :
    (normalizeConfig cfg).AppsecConfig = cfg.AppsecConfig ∧
    (normalizeConfig cfg).AppsecConfigPath = cfg.AppsecConfigPath := by
  simp only [normalizeConfig, defaultRoutines, defaultMode, ensureLeadingSlash,
    defaultPathRoot, defaultListenAddr]
  split_ifs <;> simp_all

/-- C7: `UnmarshalConfig` fails exactly when both `appsec_config` and
`appsec_config_path` are empty. -/
theorem unmarshalConfig_error_iff (cfg : AppsecSourceConfig) :
    (∃ e, UnmarshalConfig cfg = Except.error e) ↔
      (cfg.AppsecConfig = "" ∧ cfg.AppsecConfigPath = "") := by
  obtain ⟨h1, h2⟩ := normalizeConfig_appsecFields cfg
  simp only [UnmarshalConfig, h1, h2]
  split_ifs with h
  · exact ⟨fun _ => h, fun _ => ⟨_, rfl⟩⟩
  · simp [h]

end AppsecAcquisition

namespace AppsecAcquisition

/-- Field bookkeeping for the normalization steps: `ListenSocket` and `Name`
are untouched, `ListenAddr` and `Routines` are defaulted, the final `Path` is
the one computed by the two path steps. -/
theorem normalizeConfig_fields (cfg : AppsecSourceConfig) :
    (normalizeConfig cfg).ListenAddr =
      (if cfg.ListenAddr = "" ∧ cfg.ListenSocket = "" then "127.0.0.1:7422"
        else cfg.ListenAddr) ∧
    (normalizeConfig cfg).ListenSocket = cfg.ListenSocket ∧
    (normalizeConfig cfg).Name = cfg.Name ∧
    (normalizeConfig cfg).Routines = (if cfg.Routines = 0 then 1 else cfg.Routines) ∧
    (normalizeConfig cfg).Path = (ensureLeadingSlash (defaultPathRoot cfg)).Path := by
  simp only [normalizeConfig, defaultRoutines, defaultMode, ensureLeadingSlash,
    defaultPathRoot, defaultListenAddr]
  split_ifs <;> simp_all

/-- `setName` only writes the `Name` field. -/
theorem setName_fields (cfg : AppsecSourceConfig) :
    (setName cfg).ListenAddr = cfg.ListenAddr ∧
    (setName cfg).ListenSocket = cfg.ListenSocket ∧
    (setName cfg).Path = cfg.Path ∧
    (setName cfg).Routines = cfg.Routines := by
  simp only [setName]
  split_ifs <;> simp_all

/-- With both bind options configured, neither naming branch applies. -/
theorem setName_keeps_name (cfg : AppsecSourceConfig)
    (hs : cfg.ListenSocket ≠ "") (ha : cfg.ListenAddr ≠ "") :
    (setName cfg).Name = cfg.Name := by
  simp only [setName]
  split_ifs <;> simp_all

/-- After `ensureLeadingSlash` the path starts with `/`. -/
theorem ensureLeadingSlash_startsSlash (cfg : AppsecSourceConfig) :
    (ensureLeadingSlash cfg).Path.data.head? = some '/' := by
  simp only [ensureLeadingSlash]
  split_ifs with h
  · show ("/" ++ cfg.Path).data.head? = some '/'
    rw [String.data_append]
    rfl
  · simpa using h

/-- The `Path` produced by the two path steps, when the input path was empty. -/
theorem path_steps_empty (cfg : AppsecSourceConfig) (h : cfg.Path = "") :
    (ensureLeadingSlash (defaultPathRoot cfg)).Path = "/" := by
  simp only [defaultPathRoot, ensureLeadingSlash, h]
  split_ifs <;> simp_all

/-- A successful `UnmarshalConfig` returns the normalized, named
configuration. -/
theorem unmarshalConfig_ok (cfg out : AppsecSourceConfig)
    (h : UnmarshalConfig cfg = Except.ok out) :
    out = setName (normalizeConfig cfg) := by
  simp only [UnmarshalConfig] at h
  split_ifs at h
  all_goals simp_all

end AppsecAcquisition

namespace AppsecAcquisition

/-- A configuration whose `listen_addr` is explicitly set to the default
value while `listen_socket` stays empty; the rule set is named so
`UnmarshalConfig` succeeds. -/
def explicitDefaultAddrConfig : AppsecSourceConfig :=
  { ListenAddr := "127.0.0.1:7422", ListenSocket := "", CertFilePath := "", KeyFilePath := "",
    Path := "/", Routines := 1, AppsecConfig := "appsec-default", AppsecConfigPath := "",
    AuthCacheDuration := none, Mode := "tail", Name := "engine-1" }

/-- C6, counterexample: the defaulting postcondition stated as an `exactly
when` fails, because an explicitly configured `listen_addr` may already equal
`127.0.0.1:7422` while `listen_addr` is not empty. -/
theorem unmarshalConfig_default_iff_refuted :
    ¬ (∀ cfg out, UnmarshalConfig cfg = Except.ok out →
        (out.ListenAddr = "127.0.0.1:7422" ↔
          cfg.ListenAddr = "" ∧ cfg.ListenSocket = "")) := by
  intro h
  have hok : UnmarshalConfig explicitDefaultAddrConfig =
      Except.ok explicitDefaultAddrConfig := by rfl
  have h2 := (h explicitDefaultAddrConfig explicitDefaultAddrConfig hok).mp rfl
  exact absurd h2.1 (by decide)

/-- C6, amended: after a successful `UnmarshalConfig`, `ListenAddr` is
`127.0.0.1:7422` whenever both `listen_addr` and `listen_socket` were empty
(an explicitly configured value is kept otherwise), `Path` is `/` when it was
empty and always starts with `/`, and `Routines` is 1 when it was 0. -/
theorem unmarshalConfig_defaults (cfg out : AppsecSourceConfig)
    (h : UnmarshalConfig cfg = Except.ok out) :
    (cfg.ListenAddr = "" ∧ cfg.ListenSocket = "" → out.ListenAddr = "127.0.0.1:7422") ∧
    (cfg.Path = "" → out.Path = "/") ∧
    out.Path.data.head? = some '/' ∧
    (cfg.Routines = 0 → out.Routines = 1) := by
  have hout := unmarshalConfig_ok cfg out h
  subst hout
  obtain ⟨hla, _hls, _hn, hrt, hp⟩ := normalizeConfig_fields cfg
  obtain ⟨sla, _sls, sp, srt⟩ := setName_fields (normalizeConfig cfg)
  refine ⟨fun he => ?_, fun he => ?_, ?_, fun he => ?_⟩
  · rw [sla, hla, if_pos he]
  · rw [sp, hp, path_steps_empty cfg he]
  · rw [sp, hp]
    exact ensureLeadingSlash_startsSlash (defaultPathRoot cfg)
  · rw [srt, hrt, if_pos he]

/-- A concrete configuration exercising all three defaulting branches. -/
def allDefaultsConfig : AppsecSourceConfig :=
  { ListenAddr := "", ListenSocket := "", CertFilePath := "", KeyFilePath := "",
    Path := "", Routines := 0, AppsecConfig := "crowdsecurity/appsec-default",
    AppsecConfigPath := "", AuthCacheDuration := none, Mode := "", Name := "n1" }

/-- Witness for the amended C6 at a concrete configuration with empty
`listen_addr`, `listen_socket`, `path` and zero `routines`. -/
theorem unmarshalConfig_defaults_witness :
    (setName (normalizeConfig allDefaultsConfig)).ListenAddr = "127.0.0.1:7422" ∧
    (setName (normalizeConfig allDefaultsConfig)).Path = "/" ∧
    (setName (normalizeConfig allDefaultsConfig)).Routines = 1 := by
  have h := unmarshalConfig_defaults allDefaultsConfig
    (setName (normalizeConfig allDefaultsConfig)) rfl
  exact ⟨h.1 ⟨rfl, rfl⟩, h.2.1 rfl, h.2.2.2 rfl⟩

end AppsecAcquisition

namespace AppsecAcquisition

/-- The post-auth part of the handler never calls the probe. -/
theorem probeCall_not_mem_afterAuth (env : HandlerEnv) (r : RequestIn) :
    HEvent.probeCall ∉ afterAuth env r := by
  simp only [afterAuth]
  split_ifs <;> simp

/-- Counting distributes over cons. -/
theorem countEv_cons (p : HEvent → Bool) (e : HEvent) (l : List HEvent) :
    countEv p (e :: l) = (if p e then 1 else 0) + countEv p l := by
  simp only [countEv, List.filter_cons]
  split_ifs <;> simp [Nat.add_comm]

/-- Counter and enqueue bookkeeping of the post-auth part, for a request that
parses: the request counter fires once, immediately before the single
enqueue, and the block counter fires exactly on an in-band interrupt. -/
theorem afterAuth_counts (env : HandlerEnv) (r : RequestIn) (hp : r.parseOk = true) :
    countEv isReqInc (afterAuth env r) = 1 ∧
    countEv isEnqueue (afterAuth env r) = 1 ∧
    countEv isBlockInc (afterAuth env r) = (if r.inBandInterrupt then 1 else 0) ∧
    ∃ l2, afterAuth env r = HEvent.reqCounterInc :: HEvent.enqueue env.engineName :: l2 := by
  simp only [afterAuth, hp]
  split_ifs <;> simp_all [countEv, isReqInc, isEnqueue, isBlockInc]

/-- The cached expiration outlives `now`, so the recheck condition is off. -/
theorem authNeedsProbe_of_valid (env : HandlerEnv) (cache : AuthCache) (k : String)
    (E : Nat) (hget : cache.Get k = some E) (hle : env.now ≤ E) :
    authNeedsProbe env cache k = false := by
  simp [authNeedsProbe, hget]
  omega

/-- The recheck condition never turns off as time advances on an unchanged
cache. -/
theorem authNeedsProbe_mono (env env2 : HandlerEnv) (cache : AuthCache) (k : String)
    (h : authNeedsProbe env cache k = true) (hle : env.now ≤ env2.now) :
    authNeedsProbe env2 cache k = true := by
  unfold authNeedsProbe at h ⊢
  cases hg : cache.Get k with
  | none => rfl
  | some e =>
    rw [hg] at h
    simp only [decide_eq_true_eq] at h ⊢
    omega

/-- C1: a request whose key is cached with `now ≤ expiration` is served
without invoking the probe and leaves the cache unchanged; after a successful
probe the key is stored with expiration `now + auth_cache_duration`, and any
request with that key arriving at an instant within the TTL does not invoke
the probe. -/
theorem auth_cache_positive (env : HandlerEnv) (cache : AuthCache) (r : RequestIn) :
    (∀ E, r.apiKey ≠ "" → cache.Get r.apiKey = some E → env.now ≤ E →
      HEvent.probeCall ∉ (appsecHandler env cache r).1 ∧
      (appsecHandler env cache r).2 = cache) ∧
    (r.apiKey ≠ "" → authNeedsProbe env cache r.apiKey = true →
      env.probe r.apiKey = true →
      (appsecHandler env cache r).2.Get r.apiKey = some (env.now + env.authCacheDuration) ∧
      ∀ env2 r2, r2.apiKey = r.apiKey → env2.now ≤ env.now + env.authCacheDuration →
        HEvent.probeCall ∉ (appsecHandler env2 (appsecHandler env cache r).2 r2).1) := by
  constructor
  · intro E hk hget hle
    have hnp := authNeedsProbe_of_valid env cache r.apiKey E hget hle
    simp only [appsecHandler, if_neg hk, hnp, Bool.false_eq_true, if_false]
    exact ⟨probeCall_not_mem_afterAuth env r, by trivial⟩
  · intro hk hnp hpr
    simp only [appsecHandler, if_neg hk, hnp, hpr, if_true]
    constructor
    · simp [AuthCache.Set, AuthCache.Get]
    · intro env2 r2 hr2 hle2
      have hk2 : r2.apiKey ≠ "" := hr2 ▸ hk
      have hget2 : (cache.Set r.apiKey (env.now + env.authCacheDuration)).Get r2.apiKey =
          some (env.now + env.authCacheDuration) := by
        simp [AuthCache.Set, AuthCache.Get, hr2]
      have hnp2 := authNeedsProbe_of_valid env2 _ r2.apiKey _ hget2 hle2
      simp only [appsecHandler, if_neg hk2, hnp2, Bool.false_eq_true, if_false]
      exact probeCall_not_mem_afterAuth env2 r2

/-- Witness for C1: a cache that holds `k1` until instant 10 serves a request
at instant 5 without probing, and after a successful probe for `k2` on an
empty cache the entry expires at `0 + 60` and a request at instant 30 does
not probe. -/
theorem auth_cache_positive_witness :
    (HEvent.probeCall ∉
        (appsecHandler ⟨fun _ => false, 5, 60, "e1"⟩ (NewAuthCache.Set "k1" 10)
          ⟨"k1", true, false, 200, true⟩).1 ∧
      (appsecHandler ⟨fun _ => false, 5, 60, "e1"⟩ (NewAuthCache.Set "k1" 10)
          ⟨"k1", true, false, 200, true⟩).2 = NewAuthCache.Set "k1" 10) ∧
    ((appsecHandler ⟨fun _ => true, 0, 60, "e1"⟩ NewAuthCache
          ⟨"k2", true, false, 200, true⟩).2.Get "k2" = some 60 ∧
      HEvent.probeCall ∉
        (appsecHandler ⟨fun _ => false, 30, 60, "e1"⟩
          (appsecHandler ⟨fun _ => true, 0, 60, "e1"⟩ NewAuthCache
            ⟨"k2", true, false, 200, true⟩).2
          ⟨"k2", true, false, 200, true⟩).1) := by
  constructor
  · exact (auth_cache_positive ⟨fun _ => false, 5, 60, "e1"⟩ (NewAuthCache.Set "k1" 10)
      ⟨"k1", true, false, 200, true⟩).1 10 (by decide) rfl (by decide)
  · have h := (auth_cache_positive ⟨fun _ => true, 0, 60, "e1"⟩ NewAuthCache
      ⟨"k2", true, false, 200, true⟩).2 (by decide) rfl rfl
    exact ⟨h.1, h.2 ⟨fun _ => false, 30, 60, "e1"⟩ ⟨"k2", true, false, 200, true⟩ rfl
      (by decide)⟩

/-- C2: a failed probe yields a 401 and leaves the cache untouched, so any
later request with the same key (at the same or a later instant) invokes the
probe again. -/
theorem auth_cache_negative (env : HandlerEnv) (cache : AuthCache) (r : RequestIn)
    (hk : r.apiKey ≠ "") (hnp : authNeedsProbe env cache r.apiKey = true)
    (hpr : env.probe r.apiKey = false) :
    appsecHandler env cache r = ([HEvent.probeCall, HEvent.writeHeader 401], cache) ∧
    ∀ env2 r2, r2.apiKey = r.apiKey → env.now ≤ env2.now →
      HEvent.probeCall ∈ (appsecHandler env2 (appsecHandler env cache r).2 r2).1 := by
  have htrace : appsecHandler env cache r =
      ([HEvent.probeCall, HEvent.writeHeader 401], cache) := by
    simp only [appsecHandler, if_neg hk, hnp, hpr, if_true, Bool.false_eq_true, if_false]
  refine ⟨htrace, ?_⟩
  intro env2 r2 hr2 hle
  have hk2 : r2.apiKey ≠ "" := hr2 ▸ hk
  have hnp2 : authNeedsProbe env2 cache r2.apiKey = true := by
    rw [hr2]
    exact authNeedsProbe_mono env env2 cache r.apiKey hnp hle
  rw [htrace]
  cases hp2 : env2.probe r2.apiKey <;>
    simp [appsecHandler, if_neg hk2, hnp2, hp2]

/-- Witness for C2: an empty cache plus a probe that rejects `k3` yields the
401 trace, and a retry one instant later probes again. -/
theorem auth_cache_negative_witness :
    appsecHandler ⟨fun _ => false, 7, 60, "e1"⟩ NewAuthCache ⟨"k3", true, false, 200, true⟩ =
      ([HEvent.probeCall, HEvent.writeHeader 401], NewAuthCache) ∧
    HEvent.probeCall ∈
      (appsecHandler ⟨fun _ => false, 8, 60, "e1"⟩
        (appsecHandler ⟨fun _ => false, 7, 60, "e1"⟩ NewAuthCache
          ⟨"k3", true, false, 200, true⟩).2
        ⟨"k3", true, false, 200, true⟩).1 := by
  have h := auth_cache_negative ⟨fun _ => false, 7, 60, "e1"⟩ NewAuthCache
    ⟨"k3", true, false, 200, true⟩ (by decide) rfl rfl
  exact ⟨h.1, h.2 ⟨fun _ => false, 8, 60, "e1"⟩ ⟨"k3", true, false, 200, true⟩ rfl
    (by decide)⟩

/-- C3: a request without an API key is answered 401 immediately: no probe,
no enqueue, no cache mutation. -/
theorem missing_key_rejected (env : HandlerEnv) (cache : AuthCache) (r : RequestIn)
    (hk : r.apiKey = "") :
    appsecHandler env cache r = ([HEvent.writeHeader 401], cache) ∧
    HEvent.probeCall ∉ (appsecHandler env cache r).1 ∧
    (∀ name, HEvent.enqueue name ∉ (appsecHandler env cache r).1) ∧
    (appsecHandler env cache r).2 = cache := by
  simp [appsecHandler, hk]

/-- Witness for C3 at a concrete empty-key request. -/
theorem missing_key_rejected_witness :
    appsecHandler ⟨fun _ => true, 3, 60, "e1"⟩ NewAuthCache ⟨"", true, true, 200, true⟩ =
      ([HEvent.writeHeader 401], NewAuthCache) ∧
    HEvent.probeCall ∉
      (appsecHandler ⟨fun _ => true, 3, 60, "e1"⟩ NewAuthCache
        ⟨"", true, true, 200, true⟩).1 ∧
    (∀ name, HEvent.enqueue name ∉
      (appsecHandler ⟨fun _ => true, 3, 60, "e1"⟩ NewAuthCache
        ⟨"", true, true, 200, true⟩).1) ∧
    (appsecHandler ⟨fun _ => true, 3, 60, "e1"⟩ NewAuthCache
        ⟨"", true, true, 200, true⟩).2 = NewAuthCache :=
  missing_key_rejected ⟨fun _ => true, 3, 60, "e1"⟩ NewAuthCache
    ⟨"", true, true, 200, true⟩ rfl

end AppsecAcquisition

namespace AppsecAcquisition

/-- C8: for every request that passes authentication and parsing, the request
counter is incremented exactly once, immediately before the single enqueue of
the parsed request, and the block counter is incremented exactly when the
in-band verdict carries `in_band_interrupt`. -/
theorem metrics_discipline (env : HandlerEnv) (cache : AuthCache) (r : RequestIn)
    (ha : authOK env cache r.apiKey = true) (hp : r.parseOk = true) :
    countEv isReqInc (appsecHandler env cache r).1 = 1 ∧
    countEv isEnqueue (appsecHandler env cache r).1 = 1 ∧
    (∃ l1 l2, (appsecHandler env cache r).1 =
        l1 ++ HEvent.reqCounterInc :: HEvent.enqueue env.engineName :: l2 ∧
        countEv isReqInc l1 = 0) ∧
    countEv isBlockInc (appsecHandler env cache r).1 =
      (if r.inBandInterrupt then 1 else 0) := by
  have ha' : r.apiKey ≠ "" ∧
      (if authNeedsProbe env cache r.apiKey then env.probe r.apiKey else true) = true := by
    simpa [authOK, Bool.and_eq_true, bne_iff_ne] using ha
  obtain ⟨hk, hcond⟩ := ha'
  obtain ⟨c1, c2, c3, l2, hAA⟩ := afterAuth_counts env r hp
  by_cases hnp : authNeedsProbe env cache r.apiKey = true
  · have hpr : env.probe r.apiKey = true := by rwa [if_pos hnp] at hcond
    have htr : (appsecHandler env cache r).1 =
        HEvent.probeCall :: HEvent.cacheSet r.apiKey (env.now + env.authCacheDuration) ::
          afterAuth env r := by
      simp [appsecHandler, hk, hnp, hpr]
    rw [htr]
    refine ⟨?_, ?_,
      ⟨[HEvent.probeCall, HEvent.cacheSet r.apiKey (env.now + env.authCacheDuration)],
        l2, ?_, ?_⟩, ?_⟩
    · simp [countEv_cons, isReqInc, c1]
    · simp [countEv_cons, isEnqueue, c2]
    · rw [hAA]
      rfl
    · rfl
    · simp [countEv_cons, isBlockInc, c3]
  · have hnp' : authNeedsProbe env cache r.apiKey = false := by
      cases h : authNeedsProbe env cache r.apiKey
      · rfl
      · exact absurd h hnp
    have htr : (appsecHandler env cache r).1 = afterAuth env r := by
      simp [appsecHandler, hk, hnp', afterAuth]
    rw [htr]
    refine ⟨c1, c2, ⟨[], l2, ?_, rfl⟩, c3⟩
    rw [hAA]
    rfl

/-- Concrete environment for the C8 witness. -/
def envW8 : HandlerEnv := ⟨fun _ => true, 0, 60, "e2"⟩

/-- Concrete request for the C8 witness: parses, interrupts in-band. -/
def reqW8 : RequestIn := ⟨"k1", true, true, 403, true⟩

/-- Witness for C8 at a concrete authenticated, parsed, blocked request. -/
theorem metrics_discipline_witness :
    countEv isReqInc (appsecHandler envW8 NewAuthCache reqW8).1 = 1 ∧
    countEv isEnqueue (appsecHandler envW8 NewAuthCache reqW8).1 = 1 ∧
    (∃ l1 l2, (appsecHandler envW8 NewAuthCache reqW8).1 =
        l1 ++ HEvent.reqCounterInc :: HEvent.enqueue envW8.engineName :: l2 ∧
        countEv isReqInc l1 = 0) ∧
    countEv isBlockInc (appsecHandler envW8 NewAuthCache reqW8).1 =
      (if reqW8.inBandInterrupt then 1 else 0) :=
  metrics_discipline envW8 NewAuthCache reqW8 rfl rfl

/-- A request that passes auth and parses is enqueued, stamped with the
configured engine name. -/
theorem enqueue_stamped (env : HandlerEnv) (cache : AuthCache) (r : RequestIn)
    (ha : authOK env cache r.apiKey = true) (hp : r.parseOk = true) :
    HEvent.enqueue env.engineName ∈ (appsecHandler env cache r).1 := by
  have ha' : r.apiKey ≠ "" ∧
      (if authNeedsProbe env cache r.apiKey then env.probe r.apiKey else true) = true := by
    simpa [authOK, Bool.and_eq_true, bne_iff_ne] using ha
  obtain ⟨hk, hcond⟩ := ha'
  by_cases hnp : authNeedsProbe env cache r.apiKey = true
  · have hpr : env.probe r.apiKey = true := by rwa [if_pos hnp] at hcond
    simp [appsecHandler, hk, hnp, hpr, afterAuth, hp]
  · have hnp' : authNeedsProbe env cache r.apiKey = false := by
      cases h : authNeedsProbe env cache r.apiKey
      · rfl
      · exact absurd h hnp
    simp [appsecHandler, hk, hnp', afterAuth, hp]

/-- C9: with both `listen_socket` and `listen_addr` configured and no
explicit name, `UnmarshalConfig` leaves `Name` empty, and the handler then
stamps every enqueued request with the empty engine name. -/
theorem unmarshalConfig_name_empty (cfg out : AppsecSourceConfig)
    (hs : cfg.ListenSocket ≠ "") (hadr : cfg.ListenAddr ≠ "") (hn : cfg.Name = "")
    (h : UnmarshalConfig cfg = Except.ok out) :
    out.Name = "" ∧
    ∀ env cache r, env.engineName = out.Name → authOK env cache r.apiKey = true →
      r.parseOk = true → HEvent.enqueue "" ∈ (appsecHandler env cache r).1 := by
  have hout := unmarshalConfig_ok cfg out h
  obtain ⟨hla, hls, hnm, _, _⟩ := normalizeConfig_fields cfg
  have hsock : (normalizeConfig cfg).ListenSocket ≠ "" := by rw [hls]; exact hs
  have haddr : (normalizeConfig cfg).ListenAddr ≠ "" := by
    rw [hla, if_neg (fun hcon => hadr hcon.1)]
    exact hadr
  have hName : out.Name = "" := by
    rw [hout, setName_keeps_name _ hsock haddr, hnm, hn]
  refine ⟨hName, ?_⟩
  intro env cache r henv hauth hparse
  have hmem := enqueue_stamped env cache r hauth hparse
  rwa [henv, hName] at hmem

/-- A configuration with both bind options set and no name. -/
def bothBoundConfig : AppsecSourceConfig :=
  { ListenAddr := "10.0.0.1:7422", ListenSocket := "/run/appsec.sock", CertFilePath := "",
    KeyFilePath := "", Path := "/", Routines := 1, AppsecConfig := "crowdsecurity/appsec-default",
    AppsecConfigPath := "", AuthCacheDuration := none, Mode := "tail", Name := "" }

/-- Witness for C9: `bothBoundConfig` round-trips with an empty name, and a
concrete authenticated request is enqueued with the empty engine name. -/
theorem unmarshalConfig_name_empty_witness :
    bothBoundConfig.Name = "" ∧
    HEvent.enqueue "" ∈
      (appsecHandler ⟨fun _ => true, 0, 60, ""⟩ NewAuthCache
        ⟨"k9", true, false, 200, true⟩).1 := by
  have h := unmarshalConfig_name_empty bothBoundConfig bothBoundConfig
    (by decide) (by decide) rfl rfl
  exact ⟨h.1, h.2 ⟨fun _ => true, 0, 60, ""⟩ NewAuthCache
    ⟨"k9", true, false, 200, true⟩ rfl rfl rfl⟩

end AppsecAcquisition

namespace DecisionDB

/-- A slice of at most `size` elements is returned as a single chunk. -/
theorem Chunks_of_le (l : List Decision) (size : Nat) (h : l.length ≤ size) :
    Chunks l size = [l] := by
  rw [Chunks]
  exact if_pos (Or.inr h)

/-- A slice longer than a positive `size` splits into its first `size`
elements and the chunks of the rest. -/
theorem Chunks_of_gt (l : List Decision) (size : Nat) (hs : size ≠ 0)
    (h : size < l.length) :
    Chunks l size = l.take size :: Chunks (l.drop size) size := by
  rw [Chunks]
  exact if_neg (by omega)

/-- The chunk loop aborts as soon as one chunk exhausts the budget. -/
theorem deleteLoop_none (f : List Decision → Option (Except String Nat))
    (c : List Decision) (rest : List (List Decision)) (tot : Nat) (h : f c = none) :
    deleteLoop f (c :: rest) tot = none := by
  simp [deleteLoop, h]

/-- Every batch of at least `decisionDeleteBulkSize` decisions exhausts any
recursion budget of `DeleteDecisions`: the first chunk always has exactly the
bulk size, which again fails the strict guard `len < decisionDeleteBulkSize`. -/
theorem deleteDecisions_exhausts_any_fuel (exec : DbExec) :
    ∀ fuel ds, decisionDeleteBulkSize ≤ ds.length →
      DeleteDecisionsFuel exec fuel ds = none := by
  intro fuel
  induction fuel with
  | zero => intro ds _; rfl
  | succ n ih =>
    intro ds h
    rw [DeleteDecisionsFuel, if_neg (by omega)]
    rcases Nat.lt_or_ge decisionDeleteBulkSize ds.length with hgt | hle
    · rw [Chunks_of_gt ds decisionDeleteBulkSize (by decide) hgt]
      apply deleteLoop_none
      apply ih
      rw [List.length_take]
      omega
    · have hlen : ds.length = decisionDeleteBulkSize := by omega
      rw [Chunks_of_le ds decisionDeleteBulkSize (by omega)]
      apply deleteLoop_none
      exact ih ds h

/-- C10: `DeleteDecisions` applied to a batch of exactly 256 decisions never
returns, whatever recursion budget it is granted — `slicetools.Chunks` yields
the whole batch as the single chunk, and the strict guard fails on it again,
so the claimed termination does not hold. -/
theorem deleteDecisions_diverges_at_bulk_size :
    ∀ fuel, DeleteDecisionsFuel dbCount fuel bulkBatch = none := by
  intro fuel
  apply deleteDecisions_exhausts_any_fuel
  decide

/-- Batches below the bulk size are deleted in one database call. -/
theorem deleteDecisions_small_batch (exec : DbExec) (ds : List Decision) (fuel : Nat)
    (h : ds.length < decisionDeleteBulkSize) :
    DeleteDecisionsFuel exec (fuel + 1) ds = some (exec (decisionIDs ds)) := by
  rw [DeleteDecisionsFuel, if_pos h]

/-- Every chunk produced by `Chunks` with a positive size has at most `size`
elements. -/
theorem Chunks_length_le (size : Nat) (hs : size ≠ 0) :
    ∀ l : List Decision, ∀ c ∈ Chunks l size, c.length ≤ size := by
  have key : ∀ n : Nat, ∀ l : List Decision, l.length ≤ n →
      ∀ c ∈ Chunks l size, c.length ≤ size := by
    intro n
    induction n with
    | zero =>
      intro l hl c hc
      have hle : l.length ≤ size := by omega
      rw [Chunks_of_le l size hle] at hc
      simp at hc
      subst hc
      exact hle
    | succ n ih =>
      intro l hl c hc
      by_cases hle : l.length ≤ size
      · rw [Chunks_of_le l size hle] at hc
        simp at hc
        subst hc
        exact hle
      · rw [Chunks_of_gt l size hs (by omega)] at hc
        rcases List.mem_cons.mp hc with hc | hc
        · subst hc
          rw [List.length_take]
          omega
        · refine ih (l.drop size) ?_ c hc
          rw [List.length_drop]
          omega
  exact fun l => key l.length l (Nat.le_refl _)

/-- The chunk loop returns a value as soon as the recursion on every chunk
does. -/
theorem deleteLoop_some (f : List Decision → Option (Except String Nat))
    (cs : List (List Decision)) (h : ∀ c ∈ cs, ∃ v, f c = some v) :
    ∀ tot, ∃ res, deleteLoop f cs tot = some res := by
  induction cs with
  | nil => exact fun tot => ⟨.ok tot, rfl⟩
  | cons c rest ih =>
    intro tot
    obtain ⟨v, hv⟩ := h c (List.mem_cons_self c rest)
    have hrest : ∀ c2 ∈ rest, ∃ v2, f c2 = some v2 :=
      fun c2 hc2 => h c2 (List.mem_cons_of_mem c hc2)
    cases v with
    | error e => exact ⟨.error e, by simp [deleteLoop, hv]⟩
    | ok rows =>
      obtain ⟨res, hres⟩ := ih hrest (tot + rows)
      exact ⟨res, by simp [deleteLoop, hv, hres]⟩

/-- The sibling `ExpireDecisions`, whose guard is the inclusive
`len <= decisionDeleteBulkSize`, returns on every input with a recursion
budget of two: every chunk satisfies the inclusive guard directly. -/
theorem expireDecisions_terminates (exec : DbExec) (ds : List Decision) :
    ∃ res, ExpireDecisionsFuel exec 2 ds = some res := by
  rw [ExpireDecisionsFuel]
  by_cases hle : ds.length ≤ decisionDeleteBulkSize
  · rw [if_pos hle]
    exact ⟨exec (decisionIDs ds), rfl⟩
  · rw [if_neg hle]
    apply deleteLoop_some
    intro c hc
    have hc_le := Chunks_length_le decisionDeleteBulkSize (by decide) ds c hc
    rw [ExpireDecisionsFuel, if_pos hc_le]
    exact ⟨exec (decisionIDs c), rfl⟩

end DecisionDB
